import Mathlib

/-!
Shallow embedding of the ceit sub-allocator (src/ceit/ceit.h, src/ceit/mem.c).

Modelling conventions:
* A C byte string is a `List Nat` of its bytes; reading past the end of the
  list yields the terminating NUL byte (`byteAt`).
* The intrusive singly linked list of `Memory` headers inside a chunk is a
  `List Memory`; physical-address order is list order and the `next` pointer
  is the list tail.  A block handle (payload pointer) is the index of the
  block in that list.
* `size_t` counters wrap modulo 2 ^ 64 (`add64`, `sub64`), matching unsigned
  arithmetic on LP64; block sizes use plain `Nat` (their arithmetic in the
  source is guarded by comparisons and cannot wrap on states a C execution
  reaches from a real `init`).
* `malloc` is modelled as always succeeding; every claim considered here is
  conditioned on a successful backing allocation.
* A field the C code leaves uninitialized (the `name` of a block that was
  never handed out by `memory_alloc`) is `none`.
-/

namespace Ceit

set_option maxRecDepth 4000

/-- The modulus of `size_t` arithmetic on LP64, that is 2 ^ 64. -/
def SIZE_T_MOD : Nat := 18446744073709551616

/-- The value `(size_t)-1`, the initial `best_fit_size` in `memory_alloc`
(mem.c:79); equals 2 ^ 64 - 1. -/
def maxSizeT : Nat := 18446744073709551615

/-- The value `sizeof(struct Memory)` on LP64: `name[32]` at offset 0,
`size_t size` at 32, `int is_free` at 40 plus 4 bytes padding, the `next`
pointer at 48, `char data[50]` at 56..105, padded to alignment 8. -/
def sizeofMemory : Nat := 112

/-- Addition of two `size_t` values. -/
def add64 (a b : Nat) : Nat := (a + b) % SIZE_T_MOD

/-- Subtraction of two `size_t` values (wraps on underflow). -/
def sub64 (a b : Nat) : Nat := (a + (SIZE_T_MOD - b % SIZE_T_MOD)) % SIZE_T_MOD

/-- Byte number `i` of a C string; positions past the end of the list model
the NUL terminator. -/
def byteAt (s : List Nat) (i : Nat) : Nat := s.getD i 0

/-- C `strlen`: number of bytes before the first NUL. -/
def cstrlen (s : List Nat) : Nat := (s.takeWhile (fun c => c != 0)).length

/-- C `strncpy` into a destination of length `n`: copy bytes of `src` up to
a NUL, then pad with NUL bytes so that exactly `n` bytes are written. -/
def strncpy (src : List Nat) : Nat → List Nat
  | 0 => []
  | n + 1 =>
    match src with
    | [] => List.replicate (n + 1) 0
    | c :: rest =>
      if c = 0 then List.replicate (n + 1) 0 else c :: strncpy rest n

/-- C `strncmp`: compare at most `n` bytes, stopping at the first differing
byte (returning their difference) or at a NUL present in both strings. -/
def strncmp (a b : List Nat) : Nat → Int
  | 0 => 0
  | n + 1 =>
    if byteAt a 0 ≠ byteAt b 0 then (byteAt a 0 : Int) - (byteAt b 0 : Int)
    else if byteAt a 0 = 0 then 0
    else strncmp a.tail b.tail n

/-- The struct `Memory` (ceit.h:15-21): a block header.  The `next` pointer
is the list structure, and the payload bytes live in the chunk arena.  The
C field `is_free` is an int holding 1 or 0, modelled as a Bool.  `name` is
`none` while the C array is uninitialized, which happens exactly for blocks
never returned by `memory_alloc` (such blocks are free, and the scan in
`memory_free` reads a name only after seeing `is_free == 0`). -/
structure Memory where
  name : Option (List Nat)
  size : Nat
  is_free : Bool
deriving DecidableEq, Inhabited

/-- The struct `Memchunk` (ceit.h:27-35).  The registry link `next` is
modelled by the position of the chunk in the registry list. -/
structure Memchunk where
  name : List Nat
  total_size : Nat
  memory_pool : List Memory
  used_memory : Nat
  free_memory : Nat
deriving DecidableEq, Inhabited

/-- A free block with the given size and an uninitialized name, as created
by `memc_init` and by splitting in `memory_alloc`. -/
def mkFreeBlock (s : Nat) : Memory := { name := none, size := s, is_free := true }

/-- The function `memc_init` (mem.c:30-51), with the backing `malloc`
modelled as succeeding: copy and NUL-terminate the chunk name, zero the
used counter, set the free counter to the total size, and create a single
free block spanning the whole region (its name array stays uninitialized). -/
def memc_init (name : List Nat) (total_size : Nat) : Memchunk :=
  { name := (strncpy name 32).set 31 0
    total_size := total_size
    used_memory := 0
    free_memory := total_size
    memory_pool := [mkFreeBlock total_size] }

/-- The best-fit scan loop of `memory_alloc` (mem.c:80-86): walk the list
keeping the index and the size of the best block seen so far; a block is
taken as the new best when it is free, large enough, and strictly smaller
than the best size so far. -/
def bestFitAux (s : Nat) : List Memory → Nat → Option Nat → Nat → Option Nat × Nat
  | [], _, best, bsz => (best, bsz)
  | b :: rest, i, best, bsz =>
    if b.is_free = true ∧ s ≤ b.size ∧ b.size < bsz then
      bestFitAux s rest (i + 1) (some i) b.size
    else
      bestFitAux s rest (i + 1) best bsz

/-- Index of the block `memory_alloc` selects (mem.c:78-88): the scan
starts with `best_fit = NULL` and `best_fit_size = (size_t)-1`. -/
def bestFit (pool : List Memory) (s : Nat) : Option Nat :=
  (bestFitAux s pool 0 none maxSizeT).fst

/-- Lines 90-107 of `memory_alloc`: the mutation performed once `best_fit`
is the block at index `i`.  When the selected block is strictly larger
than `size + sizeof(Memory)` it is shrunk to `size` and a new free block
for the remainder (its name array uninitialized) is spliced in right after
it; then the selected block is marked used, the name copied with
`strncpy`, and the counters updated with `size_t` arithmetic. -/
def allocBody (c : Memchunk) (s : Nat) (block_name : List Nat) (i : Nat) : Memchunk :=
  let b := c.memory_pool.getD i default
  let pool1 :=
    if s + sizeofMemory < b.size then
      c.memory_pool.take i ++
        { b with size := s } ::
          mkFreeBlock (b.size - s - sizeofMemory) ::
            c.memory_pool.drop (i + 1)
    else c.memory_pool
  let pool2 := pool1.set i
    { pool1.getD i default with
        is_free := false
        name := some (strncpy block_name 32) }
  { c with
    memory_pool := pool2
    used_memory := add64 c.used_memory s
    free_memory := sub64 c.free_memory s }

/-- The function `memory_alloc` (mem.c:75-108).  Returns the handle (the
index of the selected block, standing for the payload pointer) and the
updated chunk, or `none` where the C function returns NULL. -/
def memory_alloc (c : Memchunk) (s : Nat) (block_name : List Nat) :
    Option (Nat × Memchunk) :=
  if s = 0 then none
  else
    match bestFit c.memory_pool s with
    | none => none
    | some i => some (i, allocBody c s block_name i)

/-- C `memcpy(dst + off, src, n)` inside a byte arena; exact whenever the
copy stays inside the arena. -/
def memcpy (dst : List Nat) (off : Nat) (src : List Nat) (n : Nat) : List Nat :=
  dst.take off ++ src.take n ++ dst.drop (off + n)

/-- The function `memory_write` (mem.c:132-147): NULL checks, then the
size-0 heuristic (in C, `strchr(data, 0)` always finds the terminator, so
`size` becomes `strlen(data) + 1` and the `sizeof(data)` branch is dead),
then an unconditional `memcpy` with no check against the block size.  The
handle is the payload offset inside the arena, `none` standing for NULL. -/
def memory_write (arena : List Nat) (mem_block : Option Nat)
    (data : Option (List Nat)) (size : Nat) : Int × List Nat :=
  match mem_block, data with
  | some off, some d =>
    (0, memcpy arena off d (if size = 0 then cstrlen d + 1 else size))
  | _, _ => (-1, arena)

/-- The function `memory_read` (mem.c:169-173): NULL checks, then a
`memcpy` out of the block with no check against the block size.  The bytes
copied into the caller buffer are returned next to the status code; the
Bool records whether the caller buffer is non-NULL. -/
def memory_read (arena : List Nat) (mem_block : Option Nat) (buffer : Bool)
    (size : Nat) : Int × List Nat :=
  match mem_block, buffer with
  | some off, true => (0, (arena.drop off).take size)
  | _, _ => (-1, [])

/-- The name test of the free scan (mem.c:195): the stored 32-byte name
array compared with `strncmp(current.name, block_name, 32)`.  A `none`
name is never read by the C scan (see `Memory.name`); the model lets it
match nothing. -/
def nameMatches (stored : Option (List Nat)) (req : List Nat) : Bool :=
  match stored with
  | some s => strncmp s req 32 == 0
  | none => false

/-- The search loop of `memory_free` (mem.c:193-202): index of the first
block that is used and whose name matches. -/
def findUsedIdx : List Memory → List Nat → Option Nat
  | [], _ => none
  | b :: rest, n =>
    if b.is_free = false ∧ nameMatches b.name n = true then some 0
    else (findUsedIdx rest n).map (· + 1)

/-- The coalescing pass of `memory_free` (mem.c:204-212): when the current
block and its successor are both free, the first absorbs the size of the
second plus `sizeof(Memory)` and the second is unlinked; the loop then
executes `current = current->next`, so the scan continues at the block
after the just-grown one. -/
def coalesce : List Memory → List Memory
  | b1 :: b2 :: rest =>
    if b1.is_free = true ∧ b2.is_free = true then
      { b1 with size := b1.size + (sizeofMemory + b2.size) } :: coalesce rest
    else
      b1 :: coalesce (b2 :: rest)
  | l => l

/-- The function `memory_free` (mem.c:190-213): mark the first matching
used block free, move its size between the counters (`size_t` arithmetic),
break, then run the coalescing pass.  The C function returns void, so the
model returns only the updated chunk. -/
def memory_free (c : Memchunk) (block_name : List Nat) : Memchunk :=
  let marked :=
    match findUsedIdx c.memory_pool block_name with
    | none => c
    | some i =>
      let b := c.memory_pool.getD i default
      { c with
        memory_pool := c.memory_pool.set i { b with is_free := true }
        used_memory := sub64 c.used_memory b.size
        free_memory := add64 c.free_memory b.size }
  { marked with memory_pool := coalesce marked.memory_pool }

/-- Chunk creation as seen by the global registry: mem.c declares
`global_memchunk_list` (mem.c:8), but `memc_init` (mem.c:30-51) contains
no assignment to it, so creating a chunk returns the registry exactly as
it was. -/
def memc_init_global (reg : List Memchunk) (name : List Nat)
    (total_size : Nat) : List Memchunk × Memchunk :=
  (reg, memc_init name total_size)

/-- The function `mem_clr` (mem.c:314-336): free every chunk reachable
from the registry head and reset the registry to NULL; chunks that were
never inserted in the registry are untouched. -/
def mem_clr (_reg : List Memchunk) : List Memchunk := []

/-- One driver operation on a chunk, used to state invariants over
sequences of allocator calls. -/
inductive Op where
  | alloc (s : Nat) (block_name : List Nat)
  | free (block_name : List Nat)

/-- Run one operation; a failed `memory_alloc` (NULL return) leaves the
chunk unchanged. -/
def applyOp (c : Memchunk) : Op → Memchunk
  | .alloc s n =>
    match memory_alloc c s n with
    | some (_, c2) => c2
    | none => c
  | .free n => memory_free c n

/-- Bytes a block list occupies inside the arena: payload sizes plus one
header per block. -/
def footprint (l : List Memory) : Nat :=
  (l.map (fun b => b.size + sizeofMemory)).sum

/-- A concrete used block named A with size 5, payload of which sits
inside a 200-byte arena. -/
def blkA5 : Memory := { name := some (strncpy [65] 32), size := 5, is_free := false }

/-- C5: for every name and every N greater than 0 (with the backing
allocation modelled as succeeding), `memc_init` returns a chunk whose
block list is exactly one free block of size N, with `used_memory = 0`
and `free_memory = N`. -/
theorem ceit_C5_init_shape (name : List Nat) (N : Nat) (_hN : 0 < N) :
    (memc_init name N).memory_pool = [mkFreeBlock N] ∧
    (memc_init name N).used_memory = 0 ∧
    (memc_init name N).free_memory = N ∧
    (memc_init name N).total_size = N :=
  ⟨rfl, rfl, rfl, rfl⟩

/-- Witness for C5 at the concrete input name C, N = 1024. -/
theorem ceit_C5_witness :
    (memc_init [67] 1024).memory_pool = [mkFreeBlock 1024] ∧
    (memc_init [67] 1024).used_memory = 0 ∧
    (memc_init [67] 1024).free_memory = 1024 ∧
    (memc_init [67] 1024).total_size = 1024 :=
  ceit_C5_init_shape [67] 1024 (by decide)

/-- C7 fails on the code (code bug): main.c starts with the registry NULL
and calls `memc_init` with name joyc and size 1024 * 1024; afterwards the
registry is still empty, the returned chunk is not reachable from the
registry head, and `mem_clr` consequently tears nothing down.  The spec
(section 9) itself flags that in the reference behavior newly created
chunks are never registered. -/
theorem ceit_C7_not_registered :
    (memc_init_global [] [106, 111, 121, 99] (1024 * 1024)).fst = [] ∧
    (memc_init_global [] [106, 111, 121, 99] (1024 * 1024)).snd ∉
      (memc_init_global [] [106, 111, 121, 99] (1024 * 1024)).fst ∧
    mem_clr (memc_init_global [] [106, 111, 121, 99] (1024 * 1024)).fst = [] :=
  ⟨rfl, by simp [memc_init_global], rfl⟩

/-- Counterexample to C2: a used block of size 5 accepts a 6-byte write
and a 6-byte read; both calls return 0 (success) although 6 exceeds the
block size, so no SizeExceedsBlock failure is produced by the code. -/
theorem ceit_C2_cex :
    blkA5.size < 6 ∧
    (memory_write (List.replicate 200 0) (some 0) (some [9, 9, 9, 9, 9, 9]) 6).fst = 0 ∧
    (memory_read (List.replicate 200 0) (some 0) true 6).fst = 0 :=
  ⟨by decide, rfl, rfl⟩

/-- C2 amended: `memory_write` and `memory_read` perform no bounds check
against the size of the block: with non-NULL pointers they return 0 and
copy the requested number of bytes for every requested size, including one
strictly exceeding the block size (the success half of the claim, for
sizes at most the block size, holds for the same reason). -/
theorem ceit_C2_no_bounds_check (arena d : List Nat) (off k : Nat)
    (blk : Memory) (_hk : blk.size < k) :
    (memory_write arena (some off) (some d) k).fst = 0 ∧
    (memory_read arena (some off) true k).fst = 0 :=
  ⟨rfl, rfl⟩

/-- Witness for the amended C2 at a concrete oversized request. -/
theorem ceit_C2_witness :
    (memory_write (List.replicate 200 0) (some 0) (some [9, 9, 9, 9, 9, 9]) 6).fst = 0 ∧
    (memory_read (List.replicate 200 0) (some 0) true 6).fst = 0 :=
  ceit_C2_no_bounds_check (List.replicate 200 0) [9, 9, 9, 9, 9, 9] 0 6 blkA5
    (by decide)

/-- C9: round trip.  For a valid handle (payload at offset `off`, with the
whole payload of the block inside the arena) and any `k` at most the block
size with `k` at most the length of the data, writing `k` bytes and then
reading `k` bytes back returns status 0 and exactly those bytes. -/
theorem ceit_C9_round_trip (arena bytes : List Nat) (off k : Nat)
    (blk : Memory) (hk : k ≤ blk.size) (hblk : off + blk.size ≤ arena.length)
    (hbytes : k ≤ bytes.length) :
    memory_read (memory_write arena (some off) (some bytes) k).snd
      (some off) true k = (0, bytes.take k) := by
  have hoff : off ≤ arena.length := by omega
  rcases Nat.eq_zero_or_pos k with hk0 | hk0
  · subst hk0
    simp [memory_read]
  · have hkne : k ≠ 0 := Nat.pos_iff_ne_zero.mp hk0
    simp only [memory_write, memory_read, if_neg hkne, memcpy]
    have h1 : (arena.take off).length = off := by
      simp [List.length_take]; omega
    have h2 : (bytes.take k).length = k := by
      simp [List.length_take]; omega
    rw [List.append_assoc, List.drop_left' h1, List.take_left' h2]

/-- Witness for C9 at a concrete block, arena and payload. -/
theorem ceit_C9_witness :
    memory_read (memory_write (List.replicate 200 0) (some 0) (some [1, 2, 3]) 3).snd
      (some 0) true 3 = (0, [1, 2, 3].take 3) :=
  ceit_C9_round_trip (List.replicate 200 0) [1, 2, 3] 0 3 blkA5
    (by decide) (by simp [blkA5]) (by decide)

/-- Byte number i of the tail of a C string is byte i + 1 of the string. -/
theorem byteAt_tail (l : List Nat) (i : Nat) : byteAt l.tail i = byteAt l (i + 1) := by
  cases l <;> rfl

/-- The value of `strncmp a b n` only depends on the first n bytes of b. -/
theorem strncmp_congr_right (n : Nat) : ∀ (a b1 b2 : List Nat),
    (∀ i, i < n → byteAt b1 i = byteAt b2 i) → strncmp a b1 n = strncmp a b2 n := by
  induction n with
  | zero => intro a b1 b2 _; rfl
  | succ m ih =>
    intro a b1 b2 h
    have h0 : byteAt b1 0 = byteAt b2 0 := h 0 (by omega)
    have htail : ∀ i, i < m → byteAt b1.tail i = byteAt b2.tail i := by
      intro i hi
      rw [byteAt_tail, byteAt_tail]
      exact h (i + 1) (by omega)
    simp only [strncmp, h0]
    by_cases hd : byteAt a 0 ≠ byteAt b2 0
    · rw [if_pos hd, if_pos hd]
    · rw [if_neg hd, if_neg hd]
      by_cases h0a : byteAt a 0 = 0
      · rw [if_pos h0a, if_pos h0a]
      · rw [if_neg h0a, if_neg h0a]
        exact ih a.tail b1.tail b2.tail htail

/-- The stored-name test of the free scan only depends on the first 32
bytes of the requested name. -/
theorem nameMatches_congr (st : Option (List Nat)) (n1 n2 : List Nat)
    (h : ∀ i, i < 32 → byteAt n1 i = byteAt n2 i) :
    nameMatches st n1 = nameMatches st n2 := by
  cases st with
  | none => rfl
  | some s => simp [nameMatches, strncmp_congr_right 32 s n1 n2 h]

/-- The block the free scan selects only depends on the first 32 bytes of
the requested name. -/
theorem findUsedIdx_congr (l : List Memory) (n1 n2 : List Nat)
    (h : ∀ i, i < 32 → byteAt n1 i = byteAt n2 i) :
    findUsedIdx l n1 = findUsedIdx l n2 := by
  induction l with
  | nil => rfl
  | cons b rest ih => simp [findUsedIdx, nameMatches_congr b.name n1 n2 h, ih]

/-- The value of `strncpy src n` only depends on the first n bytes of src. -/
theorem strncpy_congr : ∀ (n : Nat) (x1 x2 : List Nat),
    (∀ i, i < n → byteAt x1 i = byteAt x2 i) → strncpy x1 n = strncpy x2 n := by
  intro n
  induction n with
  | zero => intro x1 x2 _; simp [strncpy]
  | succ m ih =>
    intro x1 x2 h
    have h0 := h 0 (by omega)
    cases x1 with
    | nil =>
      cases x2 with
      | nil => rfl
      | cons c2 r2 =>
        have hc : c2 = 0 := by simpa [byteAt] using h0.symm
        simp [strncpy, hc]
    | cons c1 r1 =>
      cases x2 with
      | nil =>
        have hc : c1 = 0 := by simpa [byteAt] using h0
        simp [strncpy, hc]
      | cons c2 r2 =>
        have hc : c1 = c2 := by simpa [byteAt] using h0
        subst hc
        by_cases hz : c1 = 0
        · simp [strncpy, hz]
        · have htail : ∀ i, i < m → byteAt r1 i = byteAt r2 i := by
            intro i hi
            have := h (i + 1) (by omega)
            simpa [byteAt] using this
          simp [strncpy, hz, ih r1 r2 htail]

/-- C10: name matching reads at most 32 bytes.  Two requested names that
agree on their first 32 bytes make the free scan select the same block and
make `memory_free` produce the same chunk, and two allocation names that
agree on their first 32 bytes are stored identically by `strncpy`, so
bytes past position 31 of a stored or requested name never affect which
block is freed. -/
theorem ceit_C10_name_window (pool : List Memory) (n1 n2 : List Nat)
    (h : ∀ i, i < 32 → byteAt n1 i = byteAt n2 i) :
    findUsedIdx pool n1 = findUsedIdx pool n2 ∧
    (∀ c : Memchunk, memory_free c n1 = memory_free c n2) ∧
    (∀ x1 x2 : List Nat, (∀ i, i < 32 → byteAt x1 i = byteAt x2 i) →
      strncpy x1 32 = strncpy x2 32) := by
  refine ⟨findUsedIdx_congr pool n1 n2 h, fun c => ?_,
    fun x1 x2 hx => strncpy_congr 32 x1 x2 hx⟩
  simp [memory_free, findUsedIdx_congr c.memory_pool n1 n2 h]

/-- Witness for C10: a 33-byte name and a 34-byte name agreeing on their
first 32 bytes behave identically on a concrete pool. -/
theorem ceit_C10_witness :
    findUsedIdx [blkA5, mkFreeBlock 20] (List.replicate 33 65) =
      findUsedIdx [blkA5, mkFreeBlock 20] (List.replicate 32 65 ++ [66, 66]) ∧
    (∀ c : Memchunk, memory_free c (List.replicate 33 65) =
      memory_free c (List.replicate 32 65 ++ [66, 66])) ∧
    (∀ x1 x2 : List Nat, (∀ i, i < 32 → byteAt x1 i = byteAt x2 i) →
      strncpy x1 32 = strncpy x2 32) :=
  ceit_C10_name_window [blkA5, mkFreeBlock 20]
    (List.replicate 33 65) (List.replicate 32 65 ++ [66, 66]) (by decide)

/-- A concrete chunk holding the used block named A of size 5 and a free
tail block of size 20. -/
def c3chunk : Memchunk :=
  { name := [67]
    total_size := 30
    memory_pool := [blkA5, mkFreeBlock 20]
    used_memory := 5
    free_memory := 25 }

/-- Counterexample to C3: on a chunk whose only used block is named A,
freeing the unknown name ZZ returns the chunk completely unchanged and
produces no failure at all: `memory_free` is a void C function that simply
falls through when the scan finds nothing, so no BlockNotFound signal
reaches the caller. -/
theorem ceit_C3_cex : memory_free c3chunk [90, 90] = c3chunk := by decide

/-- The free scan finds nothing when every block is free or has a name
that does not match. -/
theorem findUsedIdx_eq_none (l : List Memory) (n : List Nat)
    (h : ∀ b ∈ l, b.is_free = true ∨ nameMatches b.name n = false) :
    findUsedIdx l n = none := by
  induction l with
  | nil => rfl
  | cons b rest ih =>
    have hb := h b (by simp)
    have hcond : ¬ (b.is_free = false ∧ nameMatches b.name n = true) := by
      rcases hb with h1 | h1 <;> simp [h1]
    rw [findUsedIdx, if_neg hcond, ih (fun x hx => h x (by simp [hx]))]
    rfl

/-- C3 amended: when no used block of the chunk matches the name,
`memory_free` silently returns (the C function is void and has no error
path), leaving `used_memory`, `free_memory` and `total_size` unchanged;
only the unconditional coalescing pass still runs over the pool. -/
theorem ceit_C3_silent_on_miss (c : Memchunk) (n : List Nat)
    (h : ∀ b ∈ c.memory_pool, b.is_free = true ∨ nameMatches b.name n = false) :
    memory_free c n = { c with memory_pool := coalesce c.memory_pool } ∧
    (memory_free c n).used_memory = c.used_memory ∧
    (memory_free c n).free_memory = c.free_memory ∧
    (memory_free c n).total_size = c.total_size := by
  have hf := findUsedIdx_eq_none c.memory_pool n h
  refine ⟨by simp [memory_free, hf], ?_, ?_, ?_⟩ <;> simp [memory_free, hf]

/-- Witness for the amended C3 at the concrete chunk and unknown name ZZ. -/
theorem ceit_C3_witness :
    memory_free c3chunk [90, 90] =
      { c3chunk with memory_pool := coalesce c3chunk.memory_pool } ∧
    (memory_free c3chunk [90, 90]).used_memory = c3chunk.used_memory ∧
    (memory_free c3chunk [90, 90]).free_memory = c3chunk.free_memory ∧
    (memory_free c3chunk [90, 90]).total_size = c3chunk.total_size :=
  ceit_C3_silent_on_miss c3chunk [90, 90] (by decide)

/-- A concrete chunk whose pool is free, used (named B), free: freeing B
creates a run of three consecutive free blocks. -/
def c4chunk : Memchunk :=
  { name := [67]
    total_size := 30
    memory_pool :=
      [mkFreeBlock 10,
       { name := some (strncpy [66] 32), size := 10, is_free := false },
       mkFreeBlock 10]
    used_memory := 10
    free_memory := 20 }

/-- Counterexample to C4: freeing block B of `c4chunk` produces the run
free(10), free(10), free(10); the single coalescing pass merges the first
two into a block of size 10 + sizeof(Memory) + 10 = 132 and then advances
past the grown block (`current = current->next`, mem.c:211), so the pass
ends with two adjacent free blocks instead of the single block the claim
requires. -/
theorem ceit_C4_cex :
    (memory_free c4chunk [66]).memory_pool = [mkFreeBlock 132, mkFreeBlock 10] ∧
    (memory_free c4chunk [66]).memory_pool.length ≠ 1 := by decide

/-- A coalescing step on a used head block just moves past it. -/
theorem coalesce_cons_used (u : Memory) (hu : u.is_free = false)
    (rest : List Memory) : coalesce (u :: rest) = u :: coalesce rest := by
  cases rest with
  | nil => rfl
  | cons b r =>
    rw [coalesce, if_neg]
    simp [hu]

/-- The coalescing pass preserves the arena footprint of the list: merging
adds the absorbed size plus one header to the survivor while removing one
block and its header. -/
theorem coalesce_footprint : ∀ l : List Memory, footprint (coalesce l) = footprint l := by
  intro l
  induction l using coalesce.induct with
  | case1 b1 b2 rest hc ih =>
    simp only [coalesce, if_pos hc, footprint, List.map_cons, List.sum_cons] at *
    omega
  | case2 b1 b2 rest hc ih =>
    simp only [coalesce, if_neg hc, footprint, List.map_cons, List.sum_cons] at *
    omega
  | case3 l h1 =>
    cases l with
    | nil => rfl
    | cons b t =>
      cases t with
      | nil => rfl
      | cons b2 r => exact (h1 b b2 r rfl).elim

/-- The coalescing pass keeps every used block untouched. -/
theorem coalesce_used_blocks : ∀ l : List Memory,
    (coalesce l).filter (fun b => !b.is_free) = l.filter (fun b => !b.is_free) := by
  intro l
  induction l using coalesce.induct with
  | case1 b1 b2 rest hc ih =>
    simp only [coalesce, if_pos hc]
    simp [List.filter, hc.1, hc.2, ih]
  | case2 b1 b2 rest hc ih =>
    simp only [coalesce, if_neg hc]
    simp [List.filter, ih]
  | case3 l h1 =>
    cases l with
    | nil => rfl
    | cons b t =>
      cases t with
      | nil => rfl
      | cons b2 r => exact (h1 b b2 r rfl).elim

/-- C4 amended: the coalescing pass merges adjacent free blocks pairwise.
When two adjacent free blocks are found the first absorbs the size of the
second plus the header overhead of the absorbed block and the second is
unlinked, but the scan then advances past the just-grown block, so a run
of three consecutive free blocks collapses to two blocks (the first two
merged, the third untouched) within that single pass, not to one.  The
pass preserves the total arena footprint and never changes a used block. -/
theorem ceit_C4_pairwise_coalesce :
    (∀ l : List Memory, footprint (coalesce l) = footprint l) ∧
    (∀ l : List Memory,
      (coalesce l).filter (fun b => !b.is_free) = l.filter (fun b => !b.is_free)) ∧
    (∀ s1 s2 s3 : Nat, ∀ u : Memory, ∀ rest : List Memory, u.is_free = false →
      coalesce (mkFreeBlock s1 :: mkFreeBlock s2 :: mkFreeBlock s3 :: u :: rest) =
        mkFreeBlock (s1 + (sizeofMemory + s2)) :: mkFreeBlock s3 :: u :: coalesce rest) := by
  refine ⟨coalesce_footprint, coalesce_used_blocks, ?_⟩
  intro s1 s2 s3 u rest hu
  rw [coalesce, if_pos ⟨rfl, rfl⟩]
  rw [coalesce, if_neg (by simp [mkFreeBlock, hu])]
  rw [coalesce_cons_used u hu rest]
  rfl

/-- A concrete used block named B with size 7. -/
def blkUsed7 : Memory := { name := some (strncpy [66] 32), size := 7, is_free := false }

/-- Witness for the amended C4: a concrete run of three free blocks before
a used block collapses to exactly two free blocks in one pass. -/
theorem ceit_C4_witness :
    coalesce [mkFreeBlock 10, mkFreeBlock 20, mkFreeBlock 30, blkUsed7] =
      [mkFreeBlock (10 + (sizeofMemory + 20)), mkFreeBlock 30, blkUsed7] := by
  have h := ceit_C4_pairwise_coalesce.2.2 10 20 30 blkUsed7 [] rfl
  simpa [coalesce] using h

/-- Destructor for a successful `memory_alloc`: the request was nonzero,
the best-fit scan selected index `i`, and the result chunk is the body
applied at `i`. -/
theorem memory_alloc_some (c : Memchunk) (s : Nat) (n : List Nat) (i : Nat)
    (c2 : Memchunk) (h : memory_alloc c s n = some (i, c2)) :
    s ≠ 0 ∧ bestFit c.memory_pool s = some i ∧ c2 = allocBody c s n i := by
  by_cases hs : s = 0
  · subst hs
    simp [memory_alloc] at h
  · cases hbf : bestFit c.memory_pool s with
    | none => simp [memory_alloc, hs, hbf] at h
    | some j =>
      simp only [memory_alloc, if_neg hs, hbf] at h
      rw [Option.some.injEq, Prod.mk.injEq] at h
      obtain ⟨rfl, rfl⟩ := h
      exact ⟨hs, rfl, rfl⟩

/-- The accounting identity carried by every chunk state: the sum of the
two counters in `size_t` arithmetic equals the total size in `size_t`
arithmetic. -/
def counterInv (c : Memchunk) : Prop :=
  (c.used_memory + c.free_memory) % SIZE_T_MOD = c.total_size % SIZE_T_MOD

/-- Every single operation preserves the `size_t` accounting identity:
`memory_alloc` adds the request to one counter and subtracts it from the
other, `memory_free` moves the block size the opposite way, both modulo
2 ^ 64. -/
theorem applyOp_counterInv (c : Memchunk) (o : Op) (h : counterInv c) :
    counterInv (applyOp c o) := by
  cases o with
  | alloc s n =>
    dsimp only [applyOp]
    cases halloc : memory_alloc c s n with
    | none => exact h
    | some p =>
      obtain ⟨i, c2⟩ := p
      obtain ⟨-, -, rfl⟩ := memory_alloc_some c s n i c2 halloc
      have h1 : (allocBody c s n i).used_memory = add64 c.used_memory s := rfl
      have h2 : (allocBody c s n i).free_memory = sub64 c.free_memory s := rfl
      have h3 : (allocBody c s n i).total_size = c.total_size := rfl
      unfold counterInv at *
      rw [h1, h2, h3]
      unfold add64 sub64 SIZE_T_MOD at *
      omega
  | free n =>
    dsimp only [applyOp]
    cases hf : findUsedIdx c.memory_pool n with
    | none =>
      have h1 : (memory_free c n).used_memory = c.used_memory := by
        unfold memory_free; rw [hf]
      have h2 : (memory_free c n).free_memory = c.free_memory := by
        unfold memory_free; rw [hf]
      have h3 : (memory_free c n).total_size = c.total_size := by
        unfold memory_free; rw [hf]
      unfold counterInv at *
      rw [h1, h2, h3]
      exact h
    | some i =>
      have h1 : (memory_free c n).used_memory =
          sub64 c.used_memory (c.memory_pool.getD i default).size := by
        unfold memory_free; rw [hf]
      have h2 : (memory_free c n).free_memory =
          add64 c.free_memory (c.memory_pool.getD i default).size := by
        unfold memory_free; rw [hf]
      have h3 : (memory_free c n).total_size = c.total_size := by
        unfold memory_free; rw [hf]
      unfold counterInv at *
      rw [h1, h2, h3]
      unfold add64 sub64 SIZE_T_MOD at *
      omega

/-- C8 amended: after any sequence of alloc and free operations from a
successful init, the counters satisfy used_memory + free_memory =
total_size in `size_t` (modulo 2 ^ 64) arithmetic, which is the arithmetic
the C counters live in.  Exact natural-number equality can fail when
`used_memory` wraps below zero, see the counterexample. -/
theorem ceit_C8_mod_invariant (name : List Nat) (N : Nat) (ops : List Op) :
    ((List.foldl applyOp (memc_init name N) ops).used_memory +
        (List.foldl applyOp (memc_init name N) ops).free_memory) % SIZE_T_MOD =
      (List.foldl applyOp (memc_init name N) ops).total_size % SIZE_T_MOD := by
  suffices hgen : ∀ (l : List Op) (c : Memchunk), counterInv c →
      counterInv (List.foldl applyOp c l) by
    exact hgen ops (memc_init name N) (by unfold counterInv memc_init; simp)
  intro l
  induction l with
  | nil => intro c hc; exact hc
  | cons o rest ih =>
    intro c hc
    exact ih (applyOp c o) (applyOp_counterInv c o hc)

/-- The state reached by init(C, 200); alloc(100, A); free(A).  The whole
200-byte block is allocated without splitting (200 is not larger than
100 + sizeof(Memory)), so freeing block A subtracts 200 from a
used_memory counter holding only 100. -/
def c8state : Memchunk :=
  List.foldl applyOp (memc_init [67] 200) [Op.alloc 100 [65], Op.free [65]]

/-- Counterexample to C8: after init(C, 200); alloc(100, A); free(A), the
used_memory counter has wrapped to 2 ^ 64 - 100 and free_memory is 300,
so the natural-number sum of the counters is not the total size 200 (it
only equals it modulo 2 ^ 64). -/
theorem ceit_C8_cex :
    c8state.used_memory = 18446744073709551516 ∧
    c8state.free_memory = 300 ∧
    c8state.total_size = 200 ∧
    c8state.used_memory + c8state.free_memory ≠ c8state.total_size := by
  decide

/-- Full characterization of the best-fit scan loop: either the
accumulator survives and no block of the remaining list is free, large
enough and strictly below the running best size, or the loop returns the
absolute index of a block that is free, large enough, strictly below the
initial best size, such that no block of the list is free, large enough
and strictly smaller than it, and no earlier block of the list is free,
large enough and of size at most its size. -/
theorem bestFitAux_spec (s : Nat) : ∀ (l : List Memory) (i : Nat)
    (best : Option Nat) (bsz : Nat) (res : Option Nat × Nat),
    bestFitAux s l i best bsz = res →
    (res.fst = best ∧ res.snd = bsz ∧
      ∀ j, j < l.length →
        ¬ ((l.getD j default).is_free = true ∧ s ≤ (l.getD j default).size ∧
            (l.getD j default).size < bsz)) ∨
    (∃ j, j < l.length ∧ res.fst = some (i + j) ∧
      res.snd = (l.getD j default).size ∧
      (l.getD j default).is_free = true ∧ s ≤ (l.getD j default).size ∧
      (l.getD j default).size < bsz ∧
      (∀ k, k < l.length →
        ¬ ((l.getD k default).is_free = true ∧ s ≤ (l.getD k default).size ∧
            (l.getD k default).size < (l.getD j default).size)) ∧
      (∀ k, k < j →
        ¬ ((l.getD k default).is_free = true ∧ s ≤ (l.getD k default).size ∧
            (l.getD k default).size ≤ (l.getD j default).size))) := by
  intro l
  induction l with
  | nil =>
    intro i best bsz res h
    cases h
    exact Or.inl ⟨rfl, rfl, fun j hj => absurd hj (Nat.not_lt_zero j)⟩
  | cons b rest ih =>
    intro i best bsz res h
    rw [bestFitAux] at h
    by_cases hc : b.is_free = true ∧ s ≤ b.size ∧ b.size < bsz
    · rw [if_pos hc] at h
      rcases ih (i + 1) (some i) b.size res h with
        ⟨h1, h2, h3⟩ | ⟨j, hj, h1, h2, h3, h4, h5, h6, h7⟩
      · refine Or.inr ⟨0, by simp, ?_, ?_, ?_, ?_, ?_, ?_, ?_⟩
        · rw [h1]
          exact congrArg some (by omega)
        · simpa using h2
        · simpa using hc.1
        · simpa using hc.2.1
        · simpa using hc.2.2
        · intro k hk
          cases k with
          | zero =>
            simp only [List.getD_cons_zero]
            intro hbad
            obtain ⟨-, -, hlt⟩ := hbad
            omega
          | succ k2 =>
            simp only [List.getD_cons_succ, List.getD_cons_zero]
            intro hbad
            exact h3 k2 (by simpa using hk) hbad
        · intro k hk
          exact absurd hk (Nat.not_lt_zero k)
      · refine Or.inr ⟨j + 1, by simpa using hj, ?_, ?_, ?_, ?_, ?_, ?_, ?_⟩
        · rw [h1]
          exact congrArg some (by omega)
        · simpa using h2
        · simpa using h3
        · simpa using h4
        · simp only [List.getD_cons_succ]
          have hb2 := hc.2.2
          omega
        · intro k hk
          cases k with
          | zero =>
            simp only [List.getD_cons_zero, List.getD_cons_succ]
            intro hbad
            obtain ⟨-, -, hlt⟩ := hbad
            omega
          | succ k2 =>
            simp only [List.getD_cons_succ]
            intro hbad
            exact h6 k2 (by simpa using hk) hbad
        · intro k hk
          cases k with
          | zero =>
            simp only [List.getD_cons_zero, List.getD_cons_succ]
            intro hbad
            obtain ⟨-, -, hle⟩ := hbad
            omega
          | succ k2 =>
            simp only [List.getD_cons_succ]
            intro hbad
            exact h7 k2 (by omega) hbad
    · rw [if_neg hc] at h
      rcases ih (i + 1) best bsz res h with
        ⟨h1, h2, h3⟩ | ⟨j, hj, h1, h2, h3, h4, h5, h6, h7⟩
      · refine Or.inl ⟨h1, h2, ?_⟩
        intro k hk
        cases k with
        | zero =>
          simpa only [List.getD_cons_zero] using hc
        | succ k2 =>
          simp only [List.getD_cons_succ]
          exact h3 k2 (by simpa using hk)
      · refine Or.inr ⟨j + 1, by simpa using hj, ?_, ?_, ?_, ?_, ?_, ?_, ?_⟩
        · rw [h1]
          exact congrArg some (by omega)
        · simpa using h2
        · simpa using h3
        · simpa using h4
        · simpa using h5
        · intro k hk
          cases k with
          | zero =>
            simp only [List.getD_cons_zero, List.getD_cons_succ]
            intro hbad
            obtain ⟨hb1, hb2, hb3⟩ := hbad
            exact hc ⟨hb1, hb2, by omega⟩
          | succ k2 =>
            simp only [List.getD_cons_succ]
            intro hbad
            exact h6 k2 (by simpa using hk) hbad
        · intro k hk
          cases k with
          | zero =>
            simp only [List.getD_cons_zero, List.getD_cons_succ]
            intro hbad
            obtain ⟨hb1, hb2, hb3⟩ := hbad
            exact hc ⟨hb1, hb2, by omega⟩
          | succ k2 =>
            simp only [List.getD_cons_succ]
            intro hbad
            exact h7 k2 (by omega) hbad

/-- A successful best-fit scan returns an index inside the pool. -/
theorem bestFit_lt_length (pool : List Memory) (s i : Nat)
    (h : bestFit pool s = some i) : i < pool.length := by
  unfold bestFit at h
  rcases bestFitAux_spec s pool 0 none maxSizeT
      (bestFitAux s pool 0 none maxSizeT) rfl with
    ⟨h1, -, -⟩ | ⟨j, hj, h1, -⟩
  · rw [h1] at h
    cases h
  · rw [h1] at h
    have := Option.some.inj h
    omega

/-- C1: best-fit selection.  Whenever `memory_alloc` succeeds with a
request of size s greater than 0, the selected block is a free block of
size at least s; every free block of size at least s is at least as large
as the selected one (so a strictly smaller eligible block is never passed
over), and any eligible block tied at the selected size sits at or after
the selected index, so the first such block in list (physical address)
order wins. -/
theorem ceit_C1_best_fit (c : Memchunk) (s : Nat) (n : List Nat) (i : Nat)
    (c2 : Memchunk) (_hs : 0 < s) (h : memory_alloc c s n = some (i, c2)) :
    i < c.memory_pool.length ∧
    (c.memory_pool.getD i default).is_free = true ∧
    s ≤ (c.memory_pool.getD i default).size ∧
    ∀ j, j < c.memory_pool.length →
      (c.memory_pool.getD j default).is_free = true →
      s ≤ (c.memory_pool.getD j default).size →
      ((c.memory_pool.getD i default).size ≤ (c.memory_pool.getD j default).size ∧
        ((c.memory_pool.getD j default).size = (c.memory_pool.getD i default).size →
          i ≤ j)) := by
  obtain ⟨-, hbf, -⟩ := memory_alloc_some c s n i c2 h
  unfold bestFit at hbf
  rcases bestFitAux_spec s c.memory_pool 0 none maxSizeT
      (bestFitAux s c.memory_pool 0 none maxSizeT) rfl with
    ⟨h1, -, -⟩ | ⟨j, hj, h1, h2, h3, h4, -, h6, h7⟩
  · rw [h1] at hbf
    cases hbf
  · rw [h1] at hbf
    have hij : i = j := by
      have := Option.some.inj hbf
      omega
    subst hij
    refine ⟨hj, h3, h4, ?_⟩
    intro k hk hkfree hksz
    constructor
    · by_contra hlt
      push_neg at hlt
      exact h6 k hk ⟨hkfree, hksz, hlt⟩
    · intro heq
      by_contra hik
      push_neg at hik
      exact h7 k hik ⟨hkfree, hksz, by omega⟩

/-- A concrete chunk with two eligible free blocks of the minimal eligible
size 50 (at indices 1 and 3), a larger eligible free block at index 0 and
a used block at index 2. -/
def cW : Memchunk :=
  { name := [67]
    total_size := 200
    memory_pool := [mkFreeBlock 100, mkFreeBlock 50, blkUsed7, mkFreeBlock 50]
    used_memory := 7
    free_memory := 193 }

/-- The chunk produced by allocating 10 bytes under name A out of `cW`. -/
def cW2 : Memchunk := ((memory_alloc cW 10 [65]).getD (0, default)).snd

/-- Witness for C1: allocating 10 bytes from `cW` selects index 1, the
first of the two tied smallest eligible free blocks. -/
theorem ceit_C1_witness :
    1 < cW.memory_pool.length ∧
    (cW.memory_pool.getD 1 default).is_free = true ∧
    10 ≤ (cW.memory_pool.getD 1 default).size ∧
    ∀ j, j < cW.memory_pool.length →
      (cW.memory_pool.getD j default).is_free = true →
      10 ≤ (cW.memory_pool.getD j default).size →
      ((cW.memory_pool.getD 1 default).size ≤ (cW.memory_pool.getD j default).size ∧
        ((cW.memory_pool.getD j default).size = (cW.memory_pool.getD 1 default).size →
          1 ≤ j)) :=
  ceit_C1_best_fit cW 10 [65] 1 cW2 (by decide) (by decide)

/-- Writing at the length of the left list replaces the head of the right
list. -/
theorem set_at_append (l1 : List Memory) (x : Memory) (t : List Memory)
    (v : Memory) (n : Nat) (h : l1.length = n) :
    (l1 ++ x :: t).set n v = l1 ++ v :: t := by
  subst h
  induction l1 with
  | nil => rfl
  | cons a r ih => simp [List.set, ih]

/-- Reading at the length of the left list gives the head of the right
list. -/
theorem getD_at_append (l1 : List Memory) (x : Memory) (t : List Memory)
    (n : Nat) (h : l1.length = n) : (l1 ++ x :: t).getD n default = x := by
  subst h
  induction l1 with
  | nil => rfl
  | cons a r ih => simpa using ih

/-- C6: split behavior of a successful allocation.  If the size of the
selected block strictly exceeds the requested size plus one block header
of overhead, the selected block is shrunk to exactly the requested size
and a new free block holding the remainder (the old size minus the
request minus one header) is spliced immediately after it, keeping every
other block in place and in order; otherwise the whole block is allocated
in place with its size unchanged and no split. -/
theorem ceit_C6_split (c : Memchunk) (s : Nat) (n : List Nat) (i : Nat)
    (c2 : Memchunk) (h : memory_alloc c s n = some (i, c2)) :
    i < c.memory_pool.length ∧
    (s + sizeofMemory < (c.memory_pool.getD i default).size →
      c2.memory_pool =
        c.memory_pool.take i ++
          { name := some (strncpy n 32), size := s, is_free := false } ::
            mkFreeBlock ((c.memory_pool.getD i default).size - s - sizeofMemory) ::
              c.memory_pool.drop (i + 1)) ∧
    (¬ s + sizeofMemory < (c.memory_pool.getD i default).size →
      c2.memory_pool =
        c.memory_pool.set i
          { name := some (strncpy n 32)
            size := (c.memory_pool.getD i default).size
            is_free := false }) := by
  obtain ⟨-, hbf, rfl⟩ := memory_alloc_some c s n i c2 h
  have hlen : i < c.memory_pool.length := bestFit_lt_length c.memory_pool s i hbf
  have htake : (c.memory_pool.take i).length = i := by
    simp [List.length_take]
    omega
  refine ⟨hlen, ?_, ?_⟩
  · intro hsplit
    show (allocBody c s n i).memory_pool = _
    simp only [allocBody]
    rw [if_pos hsplit]
    rw [getD_at_append (c.memory_pool.take i) _ _ i htake]
    rw [set_at_append (c.memory_pool.take i) _ _ _ i htake]
  · intro hsplit
    show (allocBody c s n i).memory_pool = _
    simp only [allocBody]
    rw [if_neg hsplit]

/-- The chunk from init(C, 500). -/
def cS : Memchunk := memc_init [67] 500

/-- The chunk produced by allocating 100 bytes under name A out of `cS`. -/
def cS2 : Memchunk := ((memory_alloc cS 100 [65]).getD (0, default)).snd

/-- Witness for C6 at a concrete splitting allocation: the 500-byte free
block is split into an allocated block of exactly 100 bytes and a free
remainder of 500 - 100 - sizeof(Memory) = 288 bytes placed right after
it. -/
theorem ceit_C6_witness :
    0 < cS.memory_pool.length ∧
    (100 + sizeofMemory < (cS.memory_pool.getD 0 default).size →
      cS2.memory_pool =
        cS.memory_pool.take 0 ++
          { name := some (strncpy [65] 32), size := 100, is_free := false } ::
            mkFreeBlock ((cS.memory_pool.getD 0 default).size - 100 - sizeofMemory) ::
              cS.memory_pool.drop 1) ∧
    (¬ 100 + sizeofMemory < (cS.memory_pool.getD 0 default).size →
      cS2.memory_pool =
        cS.memory_pool.set 0
          { name := some (strncpy [65] 32)
            size := (cS.memory_pool.getD 0 default).size
            is_free := false }) :=
  ceit_C6_split cS 100 [65] 0 cS2 (by decide)

end Ceit
